import Mathlib

/-!
Verification of `preprocessing.py` (parallel-corpus alignment preprocessing).

Shallow embedding conventions:
* a Python `str` is a `List Char` (`Tok` for token strings);
* `SentencePair`, `TokenizedSentencePair`, `LabeledAlignment` mirror the three
  frozen dataclasses; tuples produced by `tuple(map(int, pair.split('-')))`
  have no fixed arity in Python, so they are embedded as `List Int`;
* a Python dict built by `{token: i for i, token in enumerate(lst)}` over a
  duplicate-free `lst` is an association list `List (Tok × Nat)` zipped with
  `List.range`;
* `Counter(tokens)` iterates its keys in first-insertion order (Python dicts
  preserve insertion order), embedded by `counterKeys`; `sorted(keys,
  key=..., reverse=True)` is a stable descending sort, embedded by
  `sortByDesc`;
* fallible code returns `Except ExtractErr` / `Option`.
-/

abbrev Tok := List Char

structure SentencePair where
  source : List Tok
  target : List Tok
deriving DecidableEq

structure TokenizedSentencePair where
  source_tokens : List Nat
  target_tokens : List Nat
deriving DecidableEq

structure LabeledAlignment where
  sure : List (List Int)
  possible : List (List Int)
deriving DecidableEq

/-- Code points treated as whitespace by Python `str.split()` / `str.strip()`
(CPython `Py_UNICODE_ISSPACE`): the Unicode whitespace characters plus the four
ASCII information separators 0x1c-0x1f, per CPython 3.11's Unicode data. -/
def pySpaceChars : List Nat :=
  [0x9, 0xa, 0xb, 0xc, 0xd, 0x1c, 0x1d, 0x1e, 0x1f, 0x20, 0x85, 0xa0, 0x1680,
   0x2000, 0x2001, 0x2002, 0x2003, 0x2004, 0x2005, 0x2006, 0x2007, 0x2008,
   0x2009, 0x200a, 0x2028, 0x2029, 0x202f, 0x205f, 0x3000]

/-- Whitespace test of Python `str.split()` / `str.strip()`. -/
def isPySpace (c : Char) : Bool := pySpaceChars.contains c.toNat

/-- Python `s.strip()`: drop leading and trailing whitespace. -/
def stripWs (cs : List Char) : List Char :=
  ((cs.dropWhile isPySpace).reverse.dropWhile isPySpace).reverse

def splitWsAux : List Char → List Char → List Tok
  | [], acc => if acc.isEmpty then [] else [acc.reverse]
  | c :: cs, acc =>
    if isPySpace c then
      if acc.isEmpty then splitWsAux cs [] else acc.reverse :: splitWsAux cs []
    else splitWsAux cs (c :: acc)

/-- Python `s.split()` (no argument): split on runs of whitespace, no empty parts. -/
def pySplitWs (cs : List Char) : List Tok := splitWsAux cs []

/-- Python `s.strip().split()` as used on text and alignment fields. -/
def pyStripSplit (cs : List Char) : List Tok := pySplitWs (stripWs cs)

/-- Python `s.split(sep)` for a one-character separator: splits at every
occurrence, keeping empty parts (`"x-".split('-') == ["x", ""]`). -/
def splitOnChar (sep : Char) : List Char → List (List Char)
  | [] => [[]]
  | c :: cs =>
    match splitOnChar sep cs with
    | [] => [[]]
    | g :: gs => if c == sep then [] :: g :: gs else (c :: g) :: gs

/-- Code points stripped by `int(str)` before parsing: the Unicode whitespace
characters but not the information separators (CPython: `int('\x1c1')` raises
while `'\x1c'.isspace()` holds, so this set is strictly smaller than
`pySpaceChars`). -/
def intSpaceChars : List Nat :=
  [0x9, 0xa, 0xb, 0xc, 0xd, 0x20, 0x85, 0xa0, 0x1680,
   0x2000, 0x2001, 0x2002, 0x2003, 0x2004, 0x2005, 0x2006, 0x2007, 0x2008,
   0x2009, 0x200a, 0x2028, 0x2029, 0x202f, 0x205f, 0x3000]

/-- Whitespace test of `int(str)` stripping. -/
def isIntSpace (c : Char) : Bool := intSpaceChars.contains c.toNat

/-- The leading/trailing whitespace removal performed by `int(str)`. -/
def intStrip (cs : List Char) : List Char :=
  ((cs.dropWhile isIntSpace).reverse.dropWhile isIntSpace).reverse

/-- First code points of the 66 runs of Unicode decimal digits (category Nd),
per CPython 3.11's Unicode data; each run is ten consecutive code points with
values 0-9, and `int()` accepts digits from any of them. -/
def ndRangeStarts : List Nat :=
  [0x30, 0x660, 0x6f0, 0x7c0, 0x966, 0x9e6, 0xa66, 0xae6, 0xb66, 0xbe6,
   0xc66, 0xce6, 0xd66, 0xde6, 0xe50, 0xed0, 0xf20, 0x1040, 0x1090, 0x17e0,
   0x1810, 0x1946, 0x19d0, 0x1a80, 0x1a90, 0x1b50, 0x1bb0, 0x1c40, 0x1c50,
   0xa620, 0xa8d0, 0xa900, 0xa9d0, 0xa9f0, 0xaa50, 0xabf0, 0xff10, 0x104a0,
   0x10d30, 0x11066, 0x110f0, 0x11136, 0x111d0, 0x112f0, 0x11450, 0x114d0,
   0x11650, 0x116c0, 0x11730, 0x118e0, 0x11950, 0x11c50, 0x11d50, 0x11da0,
   0x16a60, 0x16ac0, 0x16b50, 0x1d7ce, 0x1d7d8, 0x1d7e2, 0x1d7ec, 0x1d7f6,
   0x1e140, 0x1e2f0, 0x1e950, 0x1fbf0]

/-- Decimal value of a Unicode decimal digit (category Nd); `none` otherwise. -/
def decDigit (c : Char) : Option Nat :=
  (ndRangeStarts.find? (fun s => s ≤ c.toNat && c.toNat ≤ s + 9)).map
    (fun s => c.toNat - s)

/-- Continuation of the digit-string parser after at least one digit was read:
more digits may follow, a single underscore is allowed only between two digits
(PEP 515: `int('1_2') == 12` but `'_1'`, `'1_'`, `'1__2'` all raise). -/
def digitsToNatAux : List Char → Nat → Option Nat
  | [], acc => some acc
  | '_' :: d :: rest, acc =>
    match decDigit d with
    | some v => digitsToNatAux rest (acc * 10 + v)
    | none => none
  | ['_'], _ => none
  | c :: rest, acc =>
    match decDigit c with
    | some v => digitsToNatAux rest (acc * 10 + v)
    | none => none

/-- Value of a non-empty underscore-grouped Unicode decimal digit string
(starting and ending with a digit); `none` otherwise. -/
def digitsToNat : List Char → Option Nat
  | [] => none
  | c :: cs =>
    match decDigit c with
    | some v => digitsToNatAux cs v
    | none => none

/-- Python `int(s)` in base 10 on a `str`: strip the `int()` whitespace set,
then an optional ASCII sign directly followed by a non-empty underscore-grouped
Unicode decimal digit string. Matches CPython 3.11, e.g. `int('1_2') == 12`,
`int('١٢') == 12`, `int(' +1_0 ') == 10`, and `ValueError` on `'_1'`, `'1_'`,
`'1__2'`, `'+_1'`, `'- 1'`, `'\x1c1'`, `'−1'` (Unicode minus), `''`. -/
def pythonInt (cs : List Char) : Option Int :=
  match intStrip cs with
  | [] => none
  | c :: rest =>
    if c == '+' then (digitsToNat rest).map (fun n => (n : Int))
    else if c == '-' then (digitsToNat rest).map (fun n => -(n : Int))
    else (digitsToNat (c :: rest)).map (fun n => (n : Int))

abbrev TokenDict := List (Tok × Nat)

/-- Python `d[token]` guarded by `token in d`, as an `Option`. -/
def dictGet (d : TokenDict) (t : Tok) : Option Nat :=
  (d.find? (fun p => p.1 == t)).map Prod.snd

/-- Distinct elements of a token list in first-occurrence order: the key order
of `Counter(tokens)` (Python dicts preserve insertion order). -/
def counterKeys : List Tok → List Tok
  | [] => []
  | t :: rest => t :: (counterKeys rest).filter (fun x => !(x == t))

/-- Insert `a` before the first element whose key is not larger, so that a
fold of these inserts is a stable descending sort. -/
def insertByDesc (key : Tok → Nat) (a : Tok) : List Tok → List Tok
  | [] => [a]
  | b :: bs => if key b ≤ key a then a :: b :: bs else b :: insertByDesc key a bs

/-- Stable sort by descending key: Python `sorted(keys, key=k, reverse=True)`
(Python sorts are guaranteed stable, also with `reverse=True`). -/
def sortByDesc (key : Tok → Nat) : List Tok → List Tok
  | [] => []
  | a :: l => insertByDesc key a (sortByDesc key l)

/-- Concatenation of all source sides (`source_tokens` in `get_token_to_index`). -/
def sourceTokenList (pairs : List SentencePair) : List Tok :=
  (pairs.map SentencePair.source).flatten

/-- Concatenation of all target sides (`target_tokens` in `get_token_to_index`). -/
def targetTokenList (pairs : List SentencePair) : List Tok :=
  (pairs.map SentencePair.target).flatten

/-- `sorted(counted.keys(), key=lambda x: counted[x], reverse=True)`. -/
def sortTokensByFreqDesc (toks : List Tok) : List Tok :=
  sortByDesc (fun t => toks.count t) (counterKeys toks)

/-- Python `l[:n]` for an `int` bound `n`: a non-negative bound takes the first
`n` elements; a negative bound drops the last `|n|` elements. -/
def pySliceTo (n : Int) (l : List Tok) : List Tok :=
  if 0 ≤ n then l.take n.toNat else l.take (l.length - n.natAbs)

/-- `{token: i for i, token in enumerate(lst)}` over a duplicate-free list. -/
def enumerateDict (l : List Tok) : TokenDict := l.zip (List.range l.length)

/-- Embedding of `get_token_to_index(sentence_pairs, freq_cutoff)`. -/
def get_token_to_index (pairs : List SentencePair) (freq_cutoff : Option Int) :
    TokenDict × TokenDict :=
  let source_tokens := sourceTokenList pairs
  let target_tokens := targetTokenList pairs
  let sorted_source :=
    match freq_cutoff with
    | none => sortTokensByFreqDesc source_tokens
    | some n => pySliceTo n (sortTokensByFreqDesc source_tokens)
  let sorted_target :=
    match freq_cutoff with
    | none => sortTokensByFreqDesc target_tokens
    | some n => pySliceTo n (sortTokensByFreqDesc target_tokens)
  (enumerateDict sorted_source, enumerateDict sorted_target)

/-- Embedding of `tokenize_sents(sentence_pairs, source_dict, target_dict)`.
The comprehension `[d[token] for token in toks if token in d]` is
`toks.filterMap (dictGet d)`. -/
def tokenize_sents : List SentencePair → TokenDict → TokenDict → List TokenizedSentencePair
  | [], _, _ => []
  | pair :: rest, source_dict, target_dict =>
    let source_indices := pair.source.filterMap (dictGet source_dict)
    let target_indices := pair.target.filterMap (dictGet target_dict)
    if source_indices.isEmpty || target_indices.isEmpty then
      tokenize_sents rest source_dict target_dict
    else
      ⟨source_indices, target_indices⟩ :: tokenize_sents rest source_dict target_dict

/-- Error outcomes of `extract_sentences`: `ET.ParseError` from `ET.fromstring`,
`AttributeError` from `None.strip()` on a text-less element, and `ValueError`
from `int()` on a non-integer literal (which the error message names). -/
inductive ExtractErr where
  | parseError : ExtractErr
  | attrError : ExtractErr
  | valueError : List Char → ExtractErr
deriving DecidableEq

/-- One `<s>` element of the input file, before parsing: each optional child
element (`english`, `czech`, `sure`, `possible`) carries its raw inner
character data, still in escaped form. The tag structure itself is taken as
given, since the `&`-escaping pre-pass neither creates nor destroys tag
delimiters. -/
structure RawSentence where
  english : Option (List Char)
  czech : Option (List Char)
  sure : Option (List Char)
  possible : Option (List Char)
deriving DecidableEq

/-- One `<s>` element after `ET.fromstring`: a field is `none` when the child
element is absent (`find` returned `None`), `some none` when it is present but
empty (ElementTree sets `.text = None`), and `some (some t)` when it has
unescaped text `t`. -/
structure ParsedSentence where
  english : Option (Option (List Char))
  czech : Option (Option (List Char))
  sure : Option (Option (List Char))
  possible : Option (Option (List Char))
deriving DecidableEq

/-- Line 50 of `preprocessing.py`: `content.replace('&', '&amp;')` — every
ampersand, escaped or not, is replaced. -/
def replaceAmpChars : List Char → List Char
  | [] => []
  | c :: cs =>
    if c == '&' then '&' :: 'a' :: 'm' :: 'p' :: ';' :: replaceAmpChars cs
    else c :: replaceAmpChars cs

/-- The character decoded by a predefined XML entity reference `&name;`;
`none` for an undefined entity name (an ElementTree parse error). -/
def entityChar (name : List Char) : Option Char :=
  if name == ['a', 'm', 'p'] then some '&'
  else if name == ['l', 't'] then some '<'
  else if name == ['g', 't'] then some '>'
  else if name == ['a', 'p', 'o', 's'] then some (Char.ofNat 39)
  else if name == ['q', 'u', 'o', 't'] then some '"'
  else none

/-- Scanner for ElementTree resolution of character data. The second argument
is the scanner state: `none` outside an entity reference, `some acc` inside
one with the reversed name chars read so far. A stray `<`, an unterminated or
undefined entity reference, or a malformed one (containing `&` or `<`) is a
parse error; everything else passes through with entities decoded. -/
def unescapeAux : List Char → Option (List Char) → Option (List Char)
  | [], none => some []
  | [], some _ => none
  | c :: cs, none =>
    if c == '<' then none
    else if c == '&' then unescapeAux cs (some [])
    else (unescapeAux cs none).map (fun r => c :: r)
  | c :: cs, some acc =>
    if c == ';' then
      match entityChar acc.reverse with
      | some d => (unescapeAux cs none).map (fun r => d :: r)
      | none => none
    else if c == '&' || c == '<' then none
    else unescapeAux cs (some (c :: acc))

/-- ElementTree resolution of character data: the five predefined entities are
decoded, a bare `&` or a stray `<` is a parse error, all other characters pass
through. -/
def xmlUnescapeText (cs : List Char) : Option (List Char) := unescapeAux cs none

/-- ElementTree view of one optional child element: absent stays absent, an
empty element gets `.text = None`, otherwise the character data is unescaped
(and a bad escape fails the whole `fromstring`). -/
def etField : Option (List Char) → Option (Option (Option (List Char)))
  | none => some none
  | some cs =>
    if cs.isEmpty then some (some none)
    else (xmlUnescapeText cs).map (fun t => some (some t))

/-- Effect of the line-50 pre-pass on one sentence element of the document. -/
def replaceSentence (s : RawSentence) : RawSentence :=
  ⟨s.english.map replaceAmpChars, s.czech.map replaceAmpChars,
   s.sure.map replaceAmpChars, s.possible.map replaceAmpChars⟩

/-- `ET.fromstring` on one sentence element. -/
def etParseSentence (s : RawSentence) : Option ParsedSentence :=
  match etField s.english, etField s.czech, etField s.sure, etField s.possible with
  | some e, some c, some su, some po => some ⟨e, c, su, po⟩
  | _, _, _, _ => none

/-- `ET.fromstring(content)` after the pre-pass: parsing the whole document
fails if any sentence fails. -/
def etParseDoc : List RawSentence → Option (List ParsedSentence)
  | [] => some []
  | s :: rest =>
    match etParseSentence (replaceSentence s), etParseDoc rest with
    | some p, some ps => some (p :: ps)
    | _, _ => none

/-- Lines 62–63: `elem.text.strip().split() if elem is not None else []`.
When the element is present but has no text, `elem.text` is `None` and
`.strip()` raises `AttributeError`. -/
def textTokens : Option (Option (List Char)) → Except ExtractErr (List Tok)
  | none => Except.ok []
  | some none => Except.error ExtractErr.attrError
  | some (some t) => Except.ok (pyStripSplit t)

/-- `int(part)`: the parsed integer, or the `ValueError` naming the part. -/
def intOrValueError (part : List Char) : Except ExtractErr Int :=
  match pythonInt part with
  | some n => Except.ok n
  | none => Except.error (ExtractErr.valueError part)

/-- `tuple(map(int, pair.split('-')))`: every `-`-separated part must be an
integer literal (else `int()` raises `ValueError` naming the part); the arity
of the resulting tuple is not checked. -/
def parsePairToken (tok : List Char) : Except ExtractErr (List Int) :=
  (splitOnChar '-' tok).mapM intOrValueError

/-- Lines 68–71: `if elem is not None and elem.text:` guards the comprehension
over `elem.text.strip().split()`. -/
def alignTokens : Option (Option (List Char)) → Except ExtractErr (List (List Int))
  | some (some t) => if t.isEmpty then Except.ok [] else (pyStripSplit t).mapM parsePairToken
  | _ => Except.ok []

/-- Body of the `for s in root.findall('s')` loop for one sentence, in source
order: english text, czech text, sure alignments, possible alignments. -/
def processSentence (p : ParsedSentence) : Except ExtractErr (SentencePair × LabeledAlignment) := do
  let eng ← textTokens p.english
  let cze ← textTokens p.czech
  let su ← alignTokens p.sure
  let po ← alignTokens p.possible
  Except.ok (⟨eng, cze⟩, ⟨su, po⟩)

/-- The whole loop; the first raised exception aborts everything. -/
def processDoc : List ParsedSentence → Except ExtractErr (List (SentencePair × LabeledAlignment))
  | [] => Except.ok []
  | p :: ps => do
    let r ← processSentence p
    let rs ← processDoc ps
    Except.ok (r :: rs)

/-- Embedding of `extract_sentences`: escape pre-pass and structural parse
(lines 50–51), then the per-sentence loop (lines 56–77), returning the two
lists of line 79. -/
def extract_sentences (doc : List RawSentence) :
    Except ExtractErr (List SentencePair × List LabeledAlignment) :=
  match etParseDoc doc with
  | none => Except.error ExtractErr.parseError
  | some parsed => (processDoc parsed).map (fun rs => (rs.map Prod.fst, rs.map Prod.snd))

/-- Full treatment of a single sentence element, used to state that
`extract_sentences` handles elements independently and in document order. -/
def processOne (s : RawSentence) : Except ExtractErr (SentencePair × LabeledAlignment) :=
  match etParseSentence (replaceSentence s) with
  | none => Except.error ExtractErr.parseError
  | some p => processSentence p

/-- `processOne` mapped over the document, failing on the first failure. -/
def processOneDoc : List RawSentence → Except ExtractErr (List (SentencePair × LabeledAlignment))
  | [] => Except.ok []
  | s :: rest => do
    let r ← processOne s
    let rs ← processOneDoc rest
    Except.ok (r :: rs)

/-! ## Helper lemmas -/

theorem filterMap_dictGet_eq_filter_map (d : TokenDict) (l : List Tok) :
    l.filterMap (dictGet d) =
      (l.filter (fun t => (dictGet d t).isSome)).map (fun t => (dictGet d t).getD 0) := by
  induction l with
  | nil => rfl
  | cons t rest ih =>
    cases h : dictGet d t with
    | none => simp [List.filterMap_cons, List.filter_cons, h, ih]
    | some n => simp [List.filterMap_cons, List.filter_cons, h, ih]

theorem tokenize_sents_eq_filterMap (pairs : List SentencePair) (sd td : TokenDict) :
    tokenize_sents pairs sd td = pairs.filterMap (fun pair =>
      let source_indices := pair.source.filterMap (dictGet sd)
      let target_indices := pair.target.filterMap (dictGet td)
      if source_indices.isEmpty || target_indices.isEmpty then none
      else some ⟨source_indices, target_indices⟩) := by
  induction pairs with
  | nil => rfl
  | cons pair rest ih =>
    simp only [tokenize_sents, List.filterMap_cons]
    by_cases h : (pair.source.filterMap (dictGet sd)).isEmpty
        || (pair.target.filterMap (dictGet td)).isEmpty
    · simp [h, ih]
    · simp [h, ih]

/-- Claim C4: every `TokenizedSentencePair` produced by `tokenize_sents` has
non-empty `source_tokens` and `target_tokens`; the number of output pairs is at
most the number of input pairs; and the output consists exactly of the input
pairs whose vocabulary-filtered sides are both non-empty, the others being
dropped. -/
theorem claim_C4 (pairs : List SentencePair) (sd td : TokenDict) :
    (∀ tp ∈ tokenize_sents pairs sd td, tp.source_tokens ≠ [] ∧ tp.target_tokens ≠ []) ∧
    (tokenize_sents pairs sd td).length ≤ pairs.length ∧
    tokenize_sents pairs sd td = pairs.filterMap (fun pair =>
      let source_indices := pair.source.filterMap (dictGet sd)
      let target_indices := pair.target.filterMap (dictGet td)
      if source_indices.isEmpty || target_indices.isEmpty then none
      else some ⟨source_indices, target_indices⟩) := by
  refine ⟨?_, ?_, tokenize_sents_eq_filterMap pairs sd td⟩
  · intro tp htp
    rw [tokenize_sents_eq_filterMap] at htp
    rcases List.mem_filterMap.mp htp with ⟨pair, _, hpair⟩
    by_cases h : ((pair.source.filterMap (dictGet sd)).isEmpty
        || (pair.target.filterMap (dictGet td)).isEmpty) = true
    · rw [if_pos h] at hpair
      exact absurd hpair (by simp)
    · rw [if_neg h] at hpair
      rw [Bool.not_eq_true] at h
      rcases Bool.or_eq_false_iff.mp h with ⟨hs, ht⟩
      injection hpair with hpair
      subst hpair
      exact ⟨List.isEmpty_eq_false.mp hs, List.isEmpty_eq_false.mp ht⟩
  · rw [tokenize_sents_eq_filterMap]
    exact List.length_filterMap_le _ _

/-- Witness for C4 at a concrete corpus and vocabulary. -/
theorem claim_C4_witness :
    (TokenizedSentencePair.mk [0] [0]).source_tokens ≠ [] ∧
    (TokenizedSentencePair.mk [0] [0]).target_tokens ≠ [] :=
  (claim_C4 [⟨[['a'], ['c']], [['x']]⟩] [(['a'], 0)] [(['x'], 0)]).1 ⟨[0], [0]⟩ (by decide)

/-- Claim C7: `tokenize_sents` keeps, for each retained pair, exactly the
source tokens present in `source_dict`, in order, each mapped to its index, and
independently likewise for the target side; out-of-vocabulary tokens are
silently dropped and never an error. -/
theorem claim_C7 (pairs : List SentencePair) (sd td : TokenDict) :
    tokenize_sents pairs sd td =
      (pairs.map (fun pair => TokenizedSentencePair.mk
        ((pair.source.filter (fun t => (dictGet sd t).isSome)).map (fun t => (dictGet sd t).getD 0))
        ((pair.target.filter (fun t => (dictGet td t).isSome)).map
          (fun t => (dictGet td t).getD 0)))).filter
        (fun tp => !tp.source_tokens.isEmpty && !tp.target_tokens.isEmpty) := by
  have hfun : (fun pair : SentencePair => TokenizedSentencePair.mk
        ((pair.source.filter (fun t => (dictGet sd t).isSome)).map (fun t => (dictGet sd t).getD 0))
        ((pair.target.filter (fun t => (dictGet td t).isSome)).map
          (fun t => (dictGet td t).getD 0))) =
      (fun pair : SentencePair => TokenizedSentencePair.mk
        (pair.source.filterMap (dictGet sd)) (pair.target.filterMap (dictGet td))) := by
    funext pair
    rw [← filterMap_dictGet_eq_filter_map, ← filterMap_dictGet_eq_filter_map]
  rw [hfun, tokenize_sents_eq_filterMap]
  induction pairs with
  | nil => rfl
  | cons pair rest ih =>
    simp only [List.filterMap_cons, List.map_cons, List.filter_cons]
    by_cases h : ((pair.source.filterMap (dictGet sd)).isEmpty
        || (pair.target.filterMap (dictGet td)).isEmpty) = true
    · rw [if_pos h]
      have hcond : (!(pair.source.filterMap (dictGet sd)).isEmpty
          && !(pair.target.filterMap (dictGet td)).isEmpty) = false := by
        rw [← Bool.not_or, h]
        rfl
      rw [hcond, ih]
      rfl
    · rw [if_neg h]
      rw [Bool.not_eq_true] at h
      have hcond : (!(pair.source.filterMap (dictGet sd)).isEmpty
          && !(pair.target.filterMap (dictGet td)).isEmpty) = true := by
        rw [← Bool.not_or, h]
        rfl
      rw [hcond, ih]
      rfl

theorem length_enumerateDict (l : List Tok) : (enumerateDict l).length = l.length := by
  simp [enumerateDict, List.length_zip]

theorem map_fst_enumerateDict (l : List Tok) : (enumerateDict l).map Prod.fst = l :=
  List.map_fst_zip l (List.range l.length) (by simp)

theorem map_snd_enumerateDict (l : List Tok) :
    (enumerateDict l).map Prod.snd = List.range l.length :=
  List.map_snd_zip l (List.range l.length) (by simp)

theorem mem_counterKeys {x : Tok} {l : List Tok} : x ∈ counterKeys l ↔ x ∈ l := by
  induction l with
  | nil => simp [counterKeys]
  | cons t rest ih =>
    by_cases hx : x = t
    · simp [counterKeys, hx]
    · simp [counterKeys, hx, List.mem_filter, ih]

theorem nodup_counterKeys (l : List Tok) : (counterKeys l).Nodup := by
  induction l with
  | nil => simp [counterKeys]
  | cons t rest ih =>
    refine List.Nodup.cons ?_ (ih.filter _)
    intro hmem
    exact absurd (List.mem_filter.mp hmem).2 (by simp)

theorem length_counterKeys (l : List Tok) : (counterKeys l).length = l.toFinset.card := by
  have hset : (counterKeys l).toFinset = l.toFinset := by
    ext x
    simp [List.mem_toFinset, mem_counterKeys]
  rw [← List.toFinset_card_of_nodup (nodup_counterKeys l), hset]

theorem length_insertByDesc (key : Tok → Nat) (a : Tok) (l : List Tok) :
    (insertByDesc key a l).length = l.length + 1 := by
  induction l with
  | nil => rfl
  | cons b bs ih =>
    by_cases h : key b ≤ key a
    · simp [insertByDesc, h]
    · simp [insertByDesc, h, ih]

theorem length_sortByDesc (key : Tok → Nat) (l : List Tok) :
    (sortByDesc key l).length = l.length := by
  induction l with
  | nil => rfl
  | cons a l ih => simp [sortByDesc, length_insertByDesc, ih]

theorem filter_insertByDesc (key : Tok → Nat) (c : Nat) (a : Tok) (l : List Tok) :
    (insertByDesc key a l).filter (fun t => key t == c) =
      if key a == c then a :: l.filter (fun t => key t == c)
      else l.filter (fun t => key t == c) := by
  induction l with
  | nil =>
    by_cases h : key a == c <;> simp [insertByDesc, List.filter_cons, h]
  | cons b bs ih =>
    by_cases hle : key b ≤ key a
    · simp only [insertByDesc, if_pos hle]
      exact List.filter_cons
    · simp only [insertByDesc, if_neg hle, List.filter_cons]
      by_cases hb : key b == c
      · have hlt : key a < key b := Nat.lt_of_not_le hle
        have hbc : key b = c := by simpa using hb
        have ha : (key a == c) = false := by
          simp only [beq_eq_false_iff_ne, ne_eq]
          omega
        simp [hb, ih, ha]
      · simp [hb, ih]

theorem filter_sortByDesc (key : Tok → Nat) (c : Nat) (l : List Tok) :
    (sortByDesc key l).filter (fun t => key t == c) = l.filter (fun t => key t == c) := by
  induction l with
  | nil => rfl
  | cons a l ih =>
    rw [sortByDesc, filter_insertByDesc, List.filter_cons]
    by_cases h : key a == c <;> simp [h, ih]

theorem get_token_to_index_none (pairs : List SentencePair) :
    get_token_to_index pairs none =
      (enumerateDict (sortTokensByFreqDesc (sourceTokenList pairs)),
       enumerateDict (sortTokensByFreqDesc (targetTokenList pairs))) := rfl

theorem get_token_to_index_some (pairs : List SentencePair) (n : Int) :
    get_token_to_index pairs (some n) =
      (enumerateDict (pySliceTo n (sortTokensByFreqDesc (sourceTokenList pairs))),
       enumerateDict (pySliceTo n (sortTokensByFreqDesc (targetTokenList pairs)))) := rfl

theorem values_enumerateDict (l : List Tok) :
    (enumerateDict l).map Prod.snd = List.range (enumerateDict l).length := by
  rw [length_enumerateDict]
  exact map_snd_enumerateDict l

theorem length_sortTokensByFreqDesc (toks : List Tok) :
    (sortTokensByFreqDesc toks).length = toks.toFinset.card := by
  rw [sortTokensByFreqDesc, length_sortByDesc, length_counterKeys]

/-- Claim C5: for every corpus and every positive cutoff (or none), each map
returned by `get_token_to_index` assigns exactly the values `0, …, size-1`, in
order and without gaps or duplicates; with a cutoff the size is at most the
cutoff, without one it equals the number of distinct tokens of that language. -/
theorem claim_C5 (pairs : List SentencePair) (fc : Option Int)
    (h : ∀ n : Int, fc = some n → 0 < n) :
    ((get_token_to_index pairs fc).1.map Prod.snd =
        List.range (get_token_to_index pairs fc).1.length ∧
     (get_token_to_index pairs fc).2.map Prod.snd =
        List.range (get_token_to_index pairs fc).2.length) ∧
    (match fc with
     | some n => ((get_token_to_index pairs fc).1.length : Int) ≤ n ∧
                 ((get_token_to_index pairs fc).2.length : Int) ≤ n
     | none => (get_token_to_index pairs fc).1.length = (sourceTokenList pairs).toFinset.card ∧
               (get_token_to_index pairs fc).2.length =
                 (targetTokenList pairs).toFinset.card) := by
  cases fc with
  | none =>
    refine ⟨⟨values_enumerateDict _, values_enumerateDict _⟩, ?_, ?_⟩ <;>
      rw [get_token_to_index_none] <;>
      simp [length_enumerateDict, length_sortTokensByFreqDesc]
  | some n =>
    have hn : 0 < n := h n rfl
    have hts : (n.toNat : Int) = n := Int.toNat_of_nonneg hn.le
    refine ⟨⟨values_enumerateDict _, values_enumerateDict _⟩, ?_, ?_⟩ <;>
    · rw [get_token_to_index_some]
      simp only [length_enumerateDict, pySliceTo, if_pos hn.le]
      have := List.length_take_le n.toNat (sortTokensByFreqDesc (sourceTokenList pairs))
      have := List.length_take_le n.toNat (sortTokensByFreqDesc (targetTokenList pairs))
      omega

/-- Witness for C5 at the empty corpus with cutoff 1. -/
theorem claim_C5_witness :
    (∀ n : Int, (some 1 : Option Int) = some n → 0 < n) ∧
    (((get_token_to_index [] (some 1)).1.map Prod.snd =
        List.range (get_token_to_index [] (some 1)).1.length ∧
      (get_token_to_index [] (some 1)).2.map Prod.snd =
        List.range (get_token_to_index [] (some 1)).2.length) ∧
     (((get_token_to_index [] (some 1)).1.length : Int) ≤ 1 ∧
      ((get_token_to_index [] (some 1)).2.length : Int) ≤ 1)) := by
  have hpos : ∀ n : Int, (some 1 : Option Int) = some n → 0 < n := by
    intro n hn
    cases hn
    decide
  exact ⟨hpos, claim_C5 [] (some 1) hpos⟩

/-- Claim C9: `get_token_to_index` is deterministic, and tokens of equal
frequency keep their first-occurrence order (Python dict insertion order fed
through a stable sort): within each frequency class `c`, the key order of the
returned maps coincides with the first-occurrence order of `counterKeys`. -/
theorem claim_C9 (pairs : List SentencePair) (c : Nat) (fc : Option Int) :
    get_token_to_index pairs fc = get_token_to_index pairs fc ∧
    ((get_token_to_index pairs none).1.map Prod.fst).filter
        (fun t => (sourceTokenList pairs).count t == c) =
      (counterKeys (sourceTokenList pairs)).filter
        (fun t => (sourceTokenList pairs).count t == c) ∧
    ((get_token_to_index pairs none).2.map Prod.fst).filter
        (fun t => (targetTokenList pairs).count t == c) =
      (counterKeys (targetTokenList pairs)).filter
        (fun t => (targetTokenList pairs).count t == c) := by
  refine ⟨rfl, ?_, ?_⟩ <;>
  · rw [get_token_to_index_none]
    show ((enumerateDict (sortTokensByFreqDesc _)).map Prod.fst).filter _ = _
    rw [map_fst_enumerateDict]
    exact filter_sortByDesc _ c _

theorem tokenize_sents_nil_dicts (pairs : List SentencePair) :
    tokenize_sents pairs [] [] = [] := by
  have hnil : ∀ l : List Tok, l.filterMap (dictGet []) = [] := by
    intro l
    induction l with
    | nil => rfl
    | cons t rest ih => simp [List.filterMap_cons, dictGet, ih]
  induction pairs with
  | nil => rfl
  | cons pair rest ih => simp [tokenize_sents, hnil, ih]

/-- Claim C10: `get_token_to_index` does not validate `freq_cutoff`: cutoff 0
yields two empty maps (and `tokenize_sents` with them returns the empty list),
and a negative cutoff `n` keeps all but the last `|n|` tokens of each
frequency-sorted token list instead of failing. -/
theorem claim_C10 (pairs pairs2 : List SentencePair) (n : Int) (h : n < 0) :
    ((get_token_to_index pairs (some 0)).1 = [] ∧
     (get_token_to_index pairs (some 0)).2 = [] ∧
     tokenize_sents pairs2 (get_token_to_index pairs (some 0)).1
       (get_token_to_index pairs (some 0)).2 = []) ∧
    ((get_token_to_index pairs (some n)).1.map Prod.fst =
        (sortTokensByFreqDesc (sourceTokenList pairs)).take
          ((sortTokensByFreqDesc (sourceTokenList pairs)).length - n.natAbs) ∧
     (get_token_to_index pairs (some n)).2.map Prod.fst =
        (sortTokensByFreqDesc (targetTokenList pairs)).take
          ((sortTokensByFreqDesc (targetTokenList pairs)).length - n.natAbs)) := by
  have hz : ∀ l : List Tok, pySliceTo 0 l = [] := by
    intro l
    simp [pySliceTo]
  have hzS : (get_token_to_index pairs (some 0)).1 = [] := by
    rw [get_token_to_index_some]
    show enumerateDict (pySliceTo 0 (sortTokensByFreqDesc (sourceTokenList pairs))) = []
    rw [hz]
    rfl
  have hzT : (get_token_to_index pairs (some 0)).2 = [] := by
    rw [get_token_to_index_some]
    show enumerateDict (pySliceTo 0 (sortTokensByFreqDesc (targetTokenList pairs))) = []
    rw [hz]
    rfl
  have hneg : ∀ l : List Tok, pySliceTo n l = l.take (l.length - n.natAbs) := by
    intro l
    rw [pySliceTo, if_neg (by omega)]
  refine ⟨⟨hzS, hzT, ?_⟩, ?_, ?_⟩
  · rw [hzS, hzT]
    exact tokenize_sents_nil_dicts pairs2
  · rw [get_token_to_index_some]
    show (enumerateDict (pySliceTo n (sortTokensByFreqDesc (sourceTokenList pairs)))).map
      Prod.fst = _
    rw [map_fst_enumerateDict, hneg]
  · rw [get_token_to_index_some]
    show (enumerateDict (pySliceTo n (sortTokensByFreqDesc (targetTokenList pairs)))).map
      Prod.fst = _
    rw [map_fst_enumerateDict, hneg]

/-- Witness for C10 at a concrete corpus and cutoff -1. -/
theorem claim_C10_witness :
    (-1 : Int) < 0 ∧
    (get_token_to_index [⟨[['a'], ['a'], ['b']], [['x']]⟩] (some (-1))).1.map Prod.fst =
      (sortTokensByFreqDesc (sourceTokenList [⟨[['a'], ['a'], ['b']], [['x']]⟩])).take
        ((sortTokensByFreqDesc (sourceTokenList [⟨[['a'], ['a'], ['b']], [['x']]⟩])).length -
          (-1 : Int).natAbs) :=
  ⟨by decide,
   (claim_C10 [⟨[['a'], ['a'], ['b']], [['x']]⟩] [⟨[['a']], [['x']]⟩] (-1) (by decide)).2.1⟩

theorem replaceAmpChars_amp (cs : List Char) :
    replaceAmpChars ('&' :: cs) = '&' :: 'a' :: 'm' :: 'p' :: ';' :: replaceAmpChars cs := rfl

theorem replaceAmpChars_other (c : Char) (cs : List Char) (h : c ≠ '&') :
    replaceAmpChars (c :: cs) = c :: replaceAmpChars cs := by
  simp [replaceAmpChars, h]

theorem unescape_amp_entity (cs : List Char) :
    xmlUnescapeText ('&' :: 'a' :: 'm' :: 'p' :: ';' :: cs) =
      (xmlUnescapeText cs).map (fun r => '&' :: r) := rfl

theorem unescape_plain (c : Char) (cs : List Char) (h1 : c ≠ '<') (h2 : c ≠ '&') :
    xmlUnescapeText (c :: cs) = (xmlUnescapeText cs).map (fun r => c :: r) := by
  simp [xmlUnescapeText, unescapeAux, h1, h2]

theorem unescape_replaceAmp (cs : List Char) (h : '<' ∉ cs) :
    xmlUnescapeText (replaceAmpChars cs) = some cs := by
  induction cs with
  | nil => rfl
  | cons c rest ih =>
    have h1 : c ≠ '<' := fun hc => h (by simp [hc])
    have hrest : '<' ∉ rest := fun hr => h (List.mem_cons_of_mem _ hr)
    by_cases h2 : c = '&'
    · subst h2
      rw [replaceAmpChars_amp, unescape_amp_entity, ih hrest]
      rfl
    · rw [replaceAmpChars_other c rest h2, unescape_plain c _ h1 h2, ih hrest]
      rfl

/-- Claim C1 evaluation: a missing text element yields an empty token sequence,
but a present-and-empty text element (ElementTree `.text = None`) makes
`extract_sentences` raise `AttributeError` instead of yielding an empty
sequence. -/
theorem claim_C1_empty_text_field :
    extract_sentences [⟨none, none, none, none⟩] =
      Except.ok ([⟨[], []⟩], [⟨[], []⟩]) ∧
    extract_sentences [⟨some [], none, none, none⟩] = Except.error ExtractErr.attrError ∧
    extract_sentences [⟨none, some [], none, none⟩] = Except.error ExtractErr.attrError :=
  ⟨rfl, rfl, rfl⟩

/-- Counterexample to claim C2: the pre-pass escapes every ampersand, so an
already-escaped `&amp;` in the input is not left intact but double-escaped,
surfacing as the literal token `&amp;` rather than `&`. -/
theorem claim_C2_counterexample :
    extract_sentences [⟨some ("Tom &amp; Jerry".toList), none, none, none⟩] =
      Except.ok ([⟨["Tom".toList, "&amp;".toList, "Jerry".toList], []⟩], [⟨[], []⟩]) ∧
    "&amp;".toList ≠ "&".toList :=
  ⟨rfl, by decide⟩

/-- Claim C2 as amended: `extract_sentences` escapes every literal ampersand
(also those already inside escape sequences); any `<`-free text round-trips
through pre-pass and parse unchanged, so raw ampersands parse successfully —
`Tom & Jerry` tokenizes to `["Tom", "&", "Jerry"]` — while an already-escaped
`Tom &amp; Jerry` is double-escaped and tokenizes to `["Tom", "&amp;",
"Jerry"]`. -/
theorem claim_C2_amended :
    (∀ cs : List Char, '<' ∉ cs → xmlUnescapeText (replaceAmpChars cs) = some cs) ∧
    extract_sentences [⟨some ("Tom & Jerry".toList), none, none, none⟩] =
      Except.ok ([⟨["Tom".toList, "&".toList, "Jerry".toList], []⟩], [⟨[], []⟩]) ∧
    extract_sentences [⟨some ("Tom &amp; Jerry".toList), none, none, none⟩] =
      Except.ok ([⟨["Tom".toList, "&amp;".toList, "Jerry".toList], []⟩], [⟨[], []⟩]) :=
  ⟨fun cs h => unescape_replaceAmp cs h, rfl, rfl⟩

/-- Witness for the amended C2 on a concrete ampersand-bearing text. -/
theorem claim_C2_amended_witness :
    ('<' ∉ "a & b".toList) ∧
    xmlUnescapeText (replaceAmpChars ("a & b".toList)) = some ("a & b".toList) :=
  ⟨by decide, claim_C2_amended.1 ("a & b".toList) (by decide)⟩

theorem mapM_intOrValueError_ok (l : List (List Char))
    (h : l.all (fun p => (pythonInt p).isSome) = true) :
    l.mapM intOrValueError = Except.ok (l.map (fun p => (pythonInt p).getD 0)) := by
  induction l with
  | nil => rfl
  | cons p rest ih =>
    rw [List.all_cons] at h
    rcases Bool.and_eq_true_iff.mp h with ⟨hp, hrest⟩
    cases hpv : pythonInt p with
    | none => rw [hpv] at hp; exact absurd hp (by simp)
    | some n =>
      rw [List.mapM_cons, ih hrest]
      have hv : intOrValueError p = Except.ok n := by simp [intOrValueError, hpv]
      rw [hv]
      show Except.ok (n :: rest.map (fun p => (pythonInt p).getD 0)) =
        Except.ok ((p :: rest).map (fun p => (pythonInt p).getD 0))
      rw [List.map_cons, hpv]
      rfl

theorem mapM_intOrValueError_err (l : List (List Char))
    (h : l.all (fun p => (pythonInt p).isSome) = false) :
    ∃ bad ∈ l, l.mapM intOrValueError = Except.error (ExtractErr.valueError bad) ∧
      pythonInt bad = none := by
  induction l with
  | nil => simp at h
  | cons p rest ih =>
    cases hpv : pythonInt p with
    | none =>
      refine ⟨p, List.mem_cons_self p rest, ?_, hpv⟩
      rw [List.mapM_cons]
      simp only [intOrValueError, hpv]
      rfl
    | some n =>
      have hrest : rest.all (fun p => (pythonInt p).isSome) = false := by
        rw [List.all_cons, hpv] at h
        simpa using h
      rcases ih hrest with ⟨bad, hmem, heq, hbad⟩
      refine ⟨bad, List.mem_cons_of_mem p hmem, ?_, hbad⟩
      rw [List.mapM_cons, heq]
      simp only [intOrValueError, hpv]
      rfl

theorem splitOnChar_ne_nil (sep : Char) (cs : List Char) : splitOnChar sep cs ≠ [] := by
  cases cs with
  | nil => simp [splitOnChar]
  | cons c cs =>
    simp only [splitOnChar]
    cases splitOnChar sep cs with
    | nil => simp
    | cons g gs => by_cases hc : (c == sep) = true <;> simp [hc]

theorem not_mem_splitOnChar (sep : Char) (cs : List Char) :
    ∀ part ∈ splitOnChar sep cs, sep ∉ part := by
  induction cs with
  | nil =>
    intro part hp
    simp only [splitOnChar, List.mem_singleton] at hp
    subst hp
    simp
  | cons c cs ih =>
    intro part hp
    simp only [splitOnChar] at hp
    cases hsp : splitOnChar sep cs with
    | nil => exact absurd hsp (splitOnChar_ne_nil sep cs)
    | cons g gs =>
      rw [hsp] at hp
      have hp' : part ∈ (if (c == sep) = true then [] :: g :: gs else (c :: g) :: gs) := hp
      by_cases hc : (c == sep) = true
      · rw [if_pos hc] at hp'
        rcases List.mem_cons.mp hp' with hpart | hp2
        · subst hpart; simp
        · exact ih part (by rw [hsp]; exact hp2)
      · rw [if_neg hc] at hp'
        rcases List.mem_cons.mp hp' with hpart | hp2
        · subst hpart
          intro hmem
          rcases List.mem_cons.mp hmem with hsc | hgm
          · exact hc (by simp [hsc])
          · exact ih g (by rw [hsp]; exact List.mem_cons_self g gs) hgm
        · exact ih part (by rw [hsp]; exact List.mem_cons_of_mem g hp2)

theorem mem_of_mem_intStrip {x : Char} {cs : List Char} (h : x ∈ intStrip cs) : x ∈ cs := by
  rw [intStrip, List.mem_reverse] at h
  have h2 := (List.dropWhile_sublist isIntSpace).mem h
  rw [List.mem_reverse] at h2
  exact (List.dropWhile_sublist isIntSpace).mem h2

theorem pythonInt_nonneg (part : List Char) (a : Int) (hnd : '-' ∉ part)
    (h : pythonInt part = some a) : 0 ≤ a := by
  have hnd2 : '-' ∉ intStrip part := fun hm => hnd (mem_of_mem_intStrip hm)
  rw [pythonInt] at h
  cases hs : intStrip part with
  | nil => rw [hs] at h; exact absurd h (by simp)
  | cons c rest =>
    rw [hs] at h
    have h2 : (if c == '+' then (digitsToNat rest).map (fun n => (n : Int))
        else if c == '-' then (digitsToNat rest).map (fun n => -(n : Int))
        else (digitsToNat (c :: rest)).map (fun n => (n : Int))) = some a := h
    have hm : (c == '-') = false := by
      have hcm : c ≠ '-' := by
        intro hc
        subst hc
        exact hnd2 (by rw [hs]; exact List.mem_cons_self _ _)
      simpa using hcm
    by_cases hp : (c == '+') = true
    · rw [if_pos hp] at h2
      cases hd : digitsToNat rest with
      | none => rw [hd] at h2; simp at h2
      | some m => rw [hd] at h2; simp at h2; omega
    · rw [if_neg hp, if_neg (by simp [hm])] at h2
      cases hd : digitsToNat (c :: rest) with
      | none => rw [hd] at h2; simp at h2
      | some m => rw [hd] at h2; simp at h2; omega

/-- Counterexample to claim C3: the pair-token `1-2-3` does not match
`<int>-<int>`, yet `extract_sentences` silently accepts it into the
`LabeledAlignment` as the 3-tuple `(1, 2, 3)` instead of failing. -/
theorem claim_C3_counterexample :
    extract_sentences [⟨none, none, some ("1-2-3".toList), none⟩] =
      Except.ok ([⟨[], []⟩], [⟨[[1, 2, 3]], []⟩]) := rfl

/-- Claim C3 as amended: a pair-token all of whose `-`-separated parts are
integer literals in the `int()` sense (optionally signed, underscore-grouped
Unicode decimal digits) is accepted as the tuple of those integers, whatever
its arity — `1-2-3` is stored as `(1, 2, 3)` and `1_2-3` as `(12, 3)`; a token
with a non-integer part makes `extract_sentences` fail with a `ValueError`
naming that part but not the sentence index. -/
theorem claim_C3_amended :
    (∀ tok : List Char, (splitOnChar '-' tok).all (fun p => (pythonInt p).isSome) = true →
      parsePairToken tok =
        Except.ok ((splitOnChar '-' tok).map (fun p => (pythonInt p).getD 0))) ∧
    (∀ tok : List Char, (splitOnChar '-' tok).all (fun p => (pythonInt p).isSome) = false →
      ∃ bad ∈ splitOnChar '-' tok,
        parsePairToken tok = Except.error (ExtractErr.valueError bad) ∧
          pythonInt bad = none) ∧
    extract_sentences [⟨none, none, some ("1-2-3".toList), none⟩] =
      Except.ok ([⟨[], []⟩], [⟨[[1, 2, 3]], []⟩]) ∧
    extract_sentences [⟨none, none, some ("1_2-3".toList), none⟩] =
      Except.ok ([⟨[], []⟩], [⟨[[12, 3]], []⟩]) ∧
    extract_sentences [⟨none, none, some ("a-b".toList), none⟩] =
      Except.error (ExtractErr.valueError ("a".toList)) := by
  refine ⟨?_, ?_, rfl, rfl, rfl⟩
  · intro tok h
    rw [parsePairToken]
    exact mapM_intOrValueError_ok _ h
  · intro tok h
    rcases mapM_intOrValueError_err _ h with ⟨bad, hmem, heq, hbad⟩
    exact ⟨bad, hmem, by rw [parsePairToken]; exact heq, hbad⟩

/-- Witness for the amended C3 on the token `1-2-3`. -/
theorem claim_C3_amended_witness :
    ((splitOnChar '-' ("1-2-3".toList)).all (fun p => (pythonInt p).isSome) = true) ∧
    parsePairToken ("1-2-3".toList) =
      Except.ok ((splitOnChar '-' ("1-2-3".toList)).map (fun p => (pythonInt p).getD 0)) :=
  ⟨by decide, claim_C3_amended.1 ("1-2-3".toList) (by decide)⟩

/-- Counterexample to claim C8: the pair-token `0-0` is accepted and stored as
`(0, 0)`, whose components are not ≥ 1. -/
theorem claim_C8_counterexample :
    extract_sentences [⟨none, none, some ("0-0".toList), none⟩] =
      Except.ok ([⟨[], []⟩], [⟨[[0, 0]], []⟩]) ∧ ¬((0 : Int) ≥ 1) :=
  ⟨rfl, by decide⟩

/-- Claim C8 as amended: every pair-token that `int()` accepts on both of its
two `-`-parts — including underscore-grouped digits, `1_0-2` being stored as
`(10, 2)` — is stored as the tuple `(i, j)`, and both components are
non-negative (a split part cannot carry a minus sign), but the code never
checks the 1-indexing lower bound, so 0 components are accepted. -/
theorem claim_C8_amended (tok p q : List Char) (a b : Int)
    (hsplit : splitOnChar '-' tok = [p, q])
    (hp : pythonInt p = some a) (hq : pythonInt q = some b) :
    parsePairToken tok = Except.ok [a, b] ∧ 0 ≤ a ∧ 0 ≤ b ∧
    parsePairToken ("1_0-2".toList) = Except.ok [10, 2] := by
  have hpm : p ∈ splitOnChar '-' tok := by rw [hsplit]; simp
  have hqm : q ∈ splitOnChar '-' tok := by rw [hsplit]; simp
  have hna := pythonInt_nonneg p a (not_mem_splitOnChar '-' tok p hpm) hp
  have hnb := pythonInt_nonneg q b (not_mem_splitOnChar '-' tok q hqm) hq
  refine ⟨?_, hna, hnb, rfl⟩
  rw [parsePairToken, hsplit, List.mapM_cons, List.mapM_cons, List.mapM_nil]
  have hvp : intOrValueError p = Except.ok a := by simp [intOrValueError, hp]
  have hvq : intOrValueError q = Except.ok b := by simp [intOrValueError, hq]
  rw [hvp, hvq]
  rfl

/-- Witness for the amended C8 on the token `0-0`. -/
theorem claim_C8_amended_witness :
    (splitOnChar '-' ("0-0".toList) = ["0".toList, "0".toList]) ∧
    (parsePairToken ("0-0".toList) = Except.ok [0, 0] ∧ 0 ≤ (0 : Int) ∧ 0 ≤ (0 : Int) ∧
     parsePairToken ("1_0-2".toList) = Except.ok [10, 2]) :=
  ⟨by decide,
   claim_C8_amended ("0-0".toList) ("0".toList) ("0".toList) 0 0 (by decide) (by decide)
     (by decide)⟩

theorem except_bind_ok {ε α β : Type} (a : α) (f : α → Except ε β) :
    (Except.ok a >>= f) = f a := rfl

theorem except_bind_err {ε α β : Type} (e : ε) (f : α → Except ε β) :
    ((Except.error e : Except ε α) >>= f) = Except.error e := rfl

theorem zip_map_fst_snd_self {α β : Type} (rs : List (α × β)) :
    (rs.map Prod.fst).zip (rs.map Prod.snd) = rs := by
  induction rs with
  | nil => rfl
  | cons r rest ih => simp [List.zip_cons_cons, ih]

theorem length_etParseDoc (doc : List RawSentence) (ps : List ParsedSentence)
    (h : etParseDoc doc = some ps) : ps.length = doc.length := by
  induction doc generalizing ps with
  | nil =>
    simp only [etParseDoc, Option.some.injEq] at h
    subst h
    rfl
  | cons s rest ih =>
    simp only [etParseDoc] at h
    cases h1 : etParseSentence (replaceSentence s) with
    | none => rw [h1] at h; simp at h
    | some p =>
      cases h2 : etParseDoc rest with
      | none => rw [h1, h2] at h; simp at h
      | some ps' =>
        rw [h1, h2] at h
        injection h with h
        subst h
        simp [ih ps' h2]

theorem length_processDoc (ps : List ParsedSentence)
    (rs : List (SentencePair × LabeledAlignment)) (h : processDoc ps = Except.ok rs) :
    rs.length = ps.length := by
  induction ps generalizing rs with
  | nil =>
    simp only [processDoc] at h
    injection h with h
    subst h
    rfl
  | cons p rest ih =>
    simp only [processDoc] at h
    cases h1 : processSentence p with
    | error e => rw [h1, except_bind_err] at h; exact absurd h (by simp)
    | ok r =>
      rw [h1, except_bind_ok] at h
      cases h2 : processDoc rest with
      | error e => rw [h2, except_bind_err] at h; exact absurd h (by simp)
      | ok rs' =>
        rw [h2, except_bind_ok] at h
        injection h with h
        subst h
        simp [ih rs' h2]

theorem processOneDoc_eq (doc : List RawSentence) (ps : List ParsedSentence)
    (h : etParseDoc doc = some ps) : processOneDoc doc = processDoc ps := by
  induction doc generalizing ps with
  | nil =>
    simp only [etParseDoc, Option.some.injEq] at h
    subst h
    rfl
  | cons s rest ih =>
    simp only [etParseDoc] at h
    cases h1 : etParseSentence (replaceSentence s) with
    | none => rw [h1] at h; simp at h
    | some p =>
      cases h2 : etParseDoc rest with
      | none => rw [h1, h2] at h; simp at h
      | some ps' =>
        rw [h1, h2] at h
        injection h with h
        subst h
        have hone : processOne s = processSentence p := by
          simp only [processOne, h1]
        simp only [processOneDoc, processDoc, hone, ih ps' h2]

/-- Claim C6: whenever `extract_sentences` succeeds, the sentence-pair list and
the alignment list have the length of the document and match it element-wise in
document order: the whole result equals the per-element processing of each
sentence element, even for an element with all fields absent. -/
theorem claim_C6 (doc : List RawSentence) (sps : List SentencePair)
    (als : List LabeledAlignment) (h : extract_sentences doc = Except.ok (sps, als)) :
    sps.length = doc.length ∧ als.length = doc.length ∧
    processOneDoc doc = Except.ok (sps.zip als) := by
  simp only [extract_sentences] at h
  cases hed : etParseDoc doc with
  | none => rw [hed] at h; exact absurd h (by simp)
  | some ps =>
    rw [hed] at h
    have h2 : Except.map (fun rs => (rs.map Prod.fst, rs.map Prod.snd)) (processDoc ps) =
        Except.ok (sps, als) := h
    cases hpd : processDoc ps with
    | error e => rw [hpd] at h2; exact absurd h2 (by simp [Except.map])
    | ok rs =>
      rw [hpd] at h2
      simp only [Except.map] at h2
      injection h2 with h
      injection h with hf hs
      subst hf
      subst hs
      have hlen := length_processDoc ps rs hpd
      have hlen2 := length_etParseDoc doc ps hed
      refine ⟨by simp [hlen, hlen2], by simp [hlen, hlen2], ?_⟩
      rw [processOneDoc_eq doc ps hed, hpd, zip_map_fst_snd_self]

/-- Witness for C6 on a one-element document whose fields are all absent. -/
theorem claim_C6_witness :
    ([(⟨[], []⟩ : SentencePair)].length = [(⟨none, none, none, none⟩ : RawSentence)].length ∧
     [(⟨[], []⟩ : LabeledAlignment)].length = [(⟨none, none, none, none⟩ : RawSentence)].length ∧
     processOneDoc [⟨none, none, none, none⟩] =
       Except.ok ([(⟨[], []⟩ : SentencePair)].zip [(⟨[], []⟩ : LabeledAlignment)])) :=
  claim_C6 [⟨none, none, none, none⟩] [⟨[], []⟩] [⟨[], []⟩] rfl
